import Mathlib

/-!
# Verification of the rich-input segment-synchronization engine

Shallow embedding of the RichInput Vue component (src/unnamed/part_001 and
src/unnamed/part_002, second document) and proofs about its template parser,
field value store, editable-field controller, dropdown controller and
outside-interaction dismissal.

Strings are modelled as lists of characters where the parser scans them
(mirroring the JS regex scan), and as Lean `String`s in the component-state
model. JS truthiness on strings (`""` is falsy) is modelled explicitly.
-/

namespace RichInput

/-! ## Characters and string helpers -/

/-- The left brace character, start of a placeholder. -/
def lbrace : Char := Char.ofNat 123

/-- The right brace character, end of a placeholder. -/
def rbrace : Char := Char.ofNat 125

/-- The zero-width space U+200B used by the component as the invisible
anchor character of an empty editable field (part_002 line 1065). -/
def zwspChar : Char := Char.ofNat 0x200B

/-- The zero-width no-break space U+FEFF, the other marker character the
component strips (regex `[​﻿]` at part_002 lines 776 and 1058). -/
def bomChar : Char := Char.ofNat 0xFEFF

/-- The single-marker string the change handler installs as the sole content
of an emptied field (`document.createTextNode` of U+200B, part_002 line 1065). -/
def zwsp : String := String.mk [zwspChar]

/-- `raw.replace(/[​﻿]/g, '')` — strip both zero-width marker
characters (part_002 lines 776, 1058, 1110). -/
def stripMarkers (s : String) : String :=
  String.mk (s.toList.filter (fun c => c != zwspChar && c != bomChar))

/-- Characters treated as whitespace by JavaScript's `String.prototype.trim`
(a representative decidable set: ASCII whitespace, NBSP and U+FEFF). -/
def isJsWhitespace (c : Char) : Bool :=
  c == ' ' || c == '\t' || c == '\n' || c == '\r' ||
  c == Char.ofNat 0x0B || c == Char.ofNat 0x0C ||
  c == Char.ofNat 0xA0 || c == bomChar

/-- JavaScript `s.trim()`: drop leading and trailing whitespace. -/
def jsTrim (s : String) : String :=
  String.mk (((s.toList.dropWhile isJsWhitespace).reverse.dropWhile isJsWhitespace).reverse)

/-- JS `a || b` on strings: the empty string is falsy. -/
def jsOr (a b : List Char) : List Char := if a = [] then b else a

/-- JS `a || b` where `a` may be `undefined` (an absent map entry):
both `undefined` and `""` fall through to `b`. -/
def jsOrOpt (a : Option (List Char)) (b : List Char) : List Char :=
  match a with
  | some v => if v = [] then b else v
  | none => b

/-! ## Data model (part_002 lines 645–673)

`InputField` and `SelectField` both carry a mandatory `defaultValue : string`;
`Field` is their tagged union. -/

/-- A field definition: `{ type: 'input', placeholder, defaultValue }` or
`{ type: 'select', options, defaultValue }`. -/
inductive Field where
  | input (placeholder : List Char) (defaultValue : List Char)
  | select (options : List (List Char)) (defaultValue : List Char)
  deriving DecidableEq, Repr

/-- The `defaultValue` component, present on both variants. -/
def Field.defaultValue : Field → List Char
  | .input _ d => d
  | .select _ d => d

/-- A parsed template segment (part_002 lines 713–718): a text segment or a
field segment carrying the field key and its resolved content. The
`fieldConfig` component is recoverable from the key, so it is not repeated. -/
inductive Segment where
  | text (content : List Char)
  | field (fieldKey : List Char) (content : List Char)
  deriving DecidableEq, Repr

/-- The content of a segment. -/
def Segment.content : Segment → List Char
  | .text c => c
  | .field _ c => c

/-- Lookup in the `fields` record, modelled as an association list. -/
def lookupKey (k : List Char) : List (List Char × Field) → Option Field
  | [] => none
  | (k', v) :: rest => if k' = k then some v else lookupKey k rest

/-- Lookup in the `fieldValues` store, modelled as an association list;
`none` models an absent entry (JS `undefined`). -/
def lookupVal (k : List Char) : List (List Char × List Char) → Option (List Char)
  | [] => none
  | (k', v) :: rest => if k' = k then some v else lookupVal k rest

/-- The fallback-bracket literal `[fieldKey]`. -/
def bracket (k : List Char) : List Char := '[' :: k ++ [']']

/-- Resolution of a field segment's content, from part_002 line 928:
`fieldValues.value[fieldKey] || fieldConfig.defaultValue || ` `[fieldKey]` ` `.
JS `||` lets both an absent entry and a stored empty string fall through. -/
def resolveSeg (fv : List (List Char × List Char)) (k : List Char) (cfg : Field) :
    List Char :=
  jsOrOpt (lookupVal k fv) (jsOr cfg.defaultValue (bracket k))

/-- Resolution used by `getCurrentText` (part_002 lines 759–765):
`value ?? field.defaultValue ?? ` `[key]` ` ` for a known key, and the literal
`{key}` text for an unknown key. Nullish coalescing keeps a stored empty
string; `defaultValue` is mandatory on both field variants, so the final
`?? [key]` arm of the source is unreachable and is not modelled. -/
def resolveNullish (fields : List (List Char × Field))
    (fv : List (List Char × List Char)) (k : List Char) : List Char :=
  match lookupKey k fields with
  | none => lbrace :: k ++ [rbrace]
  | some cfg =>
    match lookupVal k fv with
    | some v => v
    | none => cfg.defaultValue

/-! ## The regex scan

The parser's loop repeatedly applies `regex.exec(template)` with
`regex = /\{([^}]+)\}/g` (part_002 line 908). A match at a position requires
a `{`, then a non-empty maximal run of non-`}` characters, then a `}`;
failing that, the engine retries from the next position. -/

/-- Attempt the `([^}]+)\}` part of the pattern directly after a `{`: a
non-empty run of non-`}` characters up to the first `}`. Returns the captured
key and the text after the closing `}`, or `none` when no `}` follows or the
run would be empty. -/
def takeKey : List Char → Option (List Char × List Char)
  | [] => none
  | c :: rest =>
    if c = rbrace then none
    else
      match rest with
      | [] => none
      | d :: rest' =>
        if d = rbrace then some ([c], rest')
        else
          match takeKey rest with
          | some (key, post) => some (c :: key, post)
          | none => none

/-- Leftmost match of `\{([^}]+)\}`: returns the text before the match,
the captured key, and the text after the match. When no key match starts at
the current position, the engine retries from the next character. -/
def findPlaceholder : List Char → Option (List Char × List Char × List Char)
  | [] => none
  | c :: rest =>
    if c = lbrace then
      match takeKey rest with
      | some (key, post) => some ([], key, post)
      | none =>
        match findPlaceholder rest with
        | some (pre, key, post) => some (c :: pre, key, post)
        | none => none
    else
      match findPlaceholder rest with
      | some (pre, key, post) => some (c :: pre, key, post)
      | none => none

/-- The `while ((match = regex.exec(template)) !== null)` loop shape
(part_002 lines 913–935), generic in what is accumulated per match: `step`
receives the literal text before the match, the captured key, and the result
of the rest of the scan; `base` handles the text after the last match. The
fuel is just a structural-recursion bound; `foldMatches` supplies enough. -/
def foldMatchesF (step : List Char → List Char → α → α) (base : List Char → α) :
    Nat → List Char → α
  | 0, s => base s
  | fuel + 1, s =>
    match findPlaceholder s with
    | none => base s
    | some (pre, key, post) => step pre key (foldMatchesF step base fuel post)

/-- The regex-scan loop with sufficient fuel. -/
def foldMatches (step : List Char → List Char → α → α) (base : List Char → α)
    (s : List Char) : α :=
  foldMatchesF step base s.length s

/-! ## The template parser (part_002 lines 905–946) -/

/-- `templateSegments`: for each match, push a text segment for the literal
text since the previous match end (only when non-empty, `match.index >
lastIndex`), then a field segment when the key is known (`if (fieldConfig)`),
resolving its content with `resolveSeg`; after the loop, push a trailing text
segment when text remains (`lastIndex < template.length`). -/
def templateSegments (fields : List (List Char × Field))
    (fv : List (List Char × List Char)) : List Char → List Segment :=
  foldMatches
    (fun pre key rest =>
      (if pre = [] then [] else [Segment.text pre]) ++
      (match lookupKey key fields with
       | some cfg => [Segment.field key (resolveSeg fv key cfg)]
       | none => []) ++
      rest)
    (fun tail => if tail = [] then [] else [Segment.text tail])

/-- `getCurrentText` (part_002 lines 757–766): `template.replace(regex, fn)`
with the nullish resolver — the same leftmost scan, emitting the literal text
before each match, the replacement, and finally the unmatched tail. -/
def getCurrentText (fields : List (List Char × Field))
    (fv : List (List Char × List Char)) : List Char → List Char :=
  foldMatches
    (fun pre key rest => pre ++ resolveNullish fields fv key ++ rest)
    (fun tail => tail)

/-- Modelled from the spec: "the original template with each `{key}`
occurrence replaced by that field's resolved content" (spec §8, parsing
round-trip). Each well-formed placeholder occurrence is replaced by the
segment-resolution of its key; an unknown key keeps its literal braces
(the round-trip claim only quantifies over templates without unknown keys). -/
def substResolved (fields : List (List Char × Field))
    (fv : List (List Char × List Char)) : List Char → List Char :=
  foldMatches
    (fun pre key rest =>
      pre ++
      (match lookupKey key fields with
       | some cfg => resolveSeg fv key cfg
       | none => lbrace :: key ++ [rbrace]) ++
      rest)
    (fun tail => tail)

/-- Every placeholder occurrence found by the scan has a key present in
`fields`. -/
def keysKnown (fields : List (List Char × Field)) : List Char → Bool :=
  foldMatches (fun _ key rest => (lookupKey key fields).isSome && rest)
    (fun _ => true)

/-- Every placeholder occurrence found by the scan has a non-empty stored
value in the field value store. -/
def keysStoredNonempty (fv : List (List Char × List Char)) : List Char → Bool :=
  foldMatches
    (fun _ key rest =>
      (match lookupVal key fv with
       | some v => !v.isEmpty
       | none => false) && rest)
    (fun _ => true)

/-- In-order concatenation of segment contents. -/
def segsConcat (segs : List Segment) : List Char :=
  segs.flatMap Segment.content

/-! ## Lemmas about the scan -/

theorem takeKey_post_length : ∀ {rest key post : List Char},
    takeKey rest = some (key, post) → post.length < rest.length := by
  intro rest
  induction rest with
  | nil => intro key post h; simp [takeKey] at h
  | cons c tl ih =>
    intro key post h
    simp only [takeKey] at h
    by_cases hc : c = rbrace
    · simp [hc] at h
    · simp only [if_neg hc] at h
      cases tl with
      | nil => simp at h
      | cons d tl' =>
        by_cases hd : d = rbrace
        · simp only [if_pos hd] at h
          simp only [Option.some.injEq, Prod.mk.injEq] at h
          obtain ⟨rfl, rfl⟩ := h
          simp [List.length_cons]
          omega
        · simp only [if_neg hd] at h
          cases htk : takeKey (d :: tl') with
          | none => rw [htk] at h; simp at h
          | some x =>
            obtain ⟨key', post'⟩ := x
            rw [htk] at h
            simp only [Option.some.injEq, Prod.mk.injEq] at h
            obtain ⟨rfl, rfl⟩ := h
            have := ih htk
            simp [List.length_cons] at this ⊢
            omega

theorem findPlaceholder_post_length : ∀ {s pre key post : List Char},
    findPlaceholder s = some (pre, key, post) → post.length < s.length := by
  intro s
  induction s with
  | nil => intro pre key post h; simp [findPlaceholder] at h
  | cons c rest ih =>
    intro pre key post h
    simp only [findPlaceholder] at h
    by_cases hc : c = lbrace
    · simp only [if_pos hc] at h
      cases htk : takeKey rest with
      | some x =>
        obtain ⟨key', post'⟩ := x
        rw [htk] at h
        simp only [Option.some.injEq, Prod.mk.injEq] at h
        obtain ⟨rfl, rfl, rfl⟩ := h
        have := takeKey_post_length htk
        simp [List.length_cons]
        omega
      | none =>
        rw [htk] at h
        cases hfp : findPlaceholder rest with
        | none => rw [hfp] at h; simp at h
        | some x =>
          obtain ⟨pre', key', post'⟩ := x
          rw [hfp] at h
          simp only [Option.some.injEq, Prod.mk.injEq] at h
          obtain ⟨rfl, rfl, rfl⟩ := h
          have := ih hfp
          simp [List.length_cons]
          omega
    · simp only [if_neg hc] at h
      cases hfp : findPlaceholder rest with
      | none => rw [hfp] at h; simp at h
      | some x =>
        obtain ⟨pre', key', post'⟩ := x
        rw [hfp] at h
        simp only [Option.some.injEq, Prod.mk.injEq] at h
        obtain ⟨rfl, rfl, rfl⟩ := h
        have := ih hfp
        simp [List.length_cons]
        omega

theorem foldMatchesF_fuel {α : Type} (step : List Char → List Char → α → α)
    (base : List Char → α) :
    ∀ (n f g : Nat) (s : List Char), s.length ≤ n → s.length ≤ f → s.length ≤ g →
      foldMatchesF step base f s = foldMatchesF step base g s := by
  intro n
  induction n with
  | zero =>
    intro f g s hn _ _
    have hs : s = [] := List.length_eq_zero.mp (Nat.le_zero.mp hn)
    subst hs
    cases f <;> cases g <;> simp [foldMatchesF, findPlaceholder]
  | succ n ih =>
    intro f g s hn hf hg
    cases f with
    | zero =>
      have hs : s = [] := List.length_eq_zero.mp (Nat.le_zero.mp hf)
      subst hs
      cases g <;> simp [foldMatchesF, findPlaceholder]
    | succ f' =>
      cases g with
      | zero =>
        have hs : s = [] := List.length_eq_zero.mp (Nat.le_zero.mp hg)
        subst hs
        simp [foldMatchesF, findPlaceholder]
      | succ g' =>
        simp only [foldMatchesF]
        cases hfp : findPlaceholder s with
        | none => rfl
        | some x =>
          obtain ⟨pre, key, post⟩ := x
          have hlt := findPlaceholder_post_length hfp
          show step pre key (foldMatchesF step base f' post) =
            step pre key (foldMatchesF step base g' post)
          exact congrArg (step pre key) (ih f' g' post (by omega) (by omega) (by omega))

/-- One-step unfolding of the regex-scan loop. -/
theorem foldMatches_eq {α : Type} (step : List Char → List Char → α → α)
    (base : List Char → α) (s : List Char) :
    foldMatches step base s =
      match findPlaceholder s with
      | none => base s
      | some (pre, key, post) => step pre key (foldMatches step base post) := by
  unfold foldMatches
  cases hfp : findPlaceholder s with
  | none =>
    cases s with
    | nil => rfl
    | cons c rest =>
      show foldMatchesF step base (rest.length + 1) (c :: rest) = base (c :: rest)
      simp only [foldMatchesF, hfp]
  | some x =>
    obtain ⟨pre, key, post⟩ := x
    cases s with
    | nil => simp [findPlaceholder] at hfp
    | cons c rest =>
      have hlt := findPlaceholder_post_length hfp
      show foldMatchesF step base (rest.length + 1) (c :: rest) =
        step pre key (foldMatchesF step base post.length post)
      simp only [foldMatchesF, hfp]
      refine congrArg (step pre key) (foldMatchesF_fuel step base post.length
        rest.length post.length post (Nat.le_refl _) ?_ (Nat.le_refl _))
      simp [List.length_cons] at hlt
      omega

theorem segsConcat_append (a b : List Segment) :
    segsConcat (a ++ b) = segsConcat a ++ segsConcat b := by
  simp [segsConcat]

/-- One-step unfolding of `templateSegments`. -/
theorem templateSegments_eq (fields : List (List Char × Field))
    (fv : List (List Char × List Char)) (s : List Char) :
    templateSegments fields fv s =
      match findPlaceholder s with
      | none => if s = [] then [] else [Segment.text s]
      | some (pre, key, post) =>
        (if pre = [] then [] else [Segment.text pre]) ++
        (match lookupKey key fields with
         | some cfg => [Segment.field key (resolveSeg fv key cfg)]
         | none => []) ++
        templateSegments fields fv post :=
  foldMatches_eq _ _ s

/-- One-step unfolding of `getCurrentText`. -/
theorem getCurrentText_eq (fields : List (List Char × Field))
    (fv : List (List Char × List Char)) (s : List Char) :
    getCurrentText fields fv s =
      match findPlaceholder s with
      | none => s
      | some (pre, key, post) =>
        pre ++ resolveNullish fields fv key ++ getCurrentText fields fv post :=
  foldMatches_eq _ _ s

/-- One-step unfolding of `substResolved`. -/
theorem substResolved_eq (fields : List (List Char × Field))
    (fv : List (List Char × List Char)) (s : List Char) :
    substResolved fields fv s =
      match findPlaceholder s with
      | none => s
      | some (pre, key, post) =>
        pre ++
        (match lookupKey key fields with
         | some cfg => resolveSeg fv key cfg
         | none => lbrace :: key ++ [rbrace]) ++
        substResolved fields fv post :=
  foldMatches_eq _ _ s

/-- One-step unfolding of `keysKnown`. -/
theorem keysKnown_eq (fields : List (List Char × Field)) (s : List Char) :
    keysKnown fields s =
      match findPlaceholder s with
      | none => true
      | some (_, key, post) => (lookupKey key fields).isSome && keysKnown fields post :=
  foldMatches_eq _ _ s

/-- One-step unfolding of `keysStoredNonempty`. -/
theorem keysStoredNonempty_eq (fv : List (List Char × List Char)) (s : List Char) :
    keysStoredNonempty fv s =
      match findPlaceholder s with
      | none => true
      | some (_, key, post) =>
        (match lookupVal key fv with
         | some v => !v.isEmpty
         | none => false) && keysStoredNonempty fv post :=
  foldMatches_eq _ _ s

/-- Concatenating segment contents agrees with replacing each placeholder,
provided every placeholder key is known (the core of the round-trip). -/
theorem segsConcat_templateSegments (fields : List (List Char × Field))
    (fv : List (List Char × List Char)) :
    ∀ (n : Nat) (s : List Char), s.length ≤ n → keysKnown fields s = true →
      segsConcat (templateSegments fields fv s) = substResolved fields fv s := by
  intro n
  induction n with
  | zero =>
    intro s hn _
    have hs : s = [] := List.length_eq_zero.mp (Nat.le_zero.mp hn)
    subst hs
    rfl
  | succ n ih =>
    intro s hn hk
    rw [templateSegments_eq, substResolved_eq]
    rw [keysKnown_eq] at hk
    cases hfp : findPlaceholder s with
    | none =>
      by_cases hs : s = [] <;> simp [hs, segsConcat, Segment.content]
    | some x =>
      obtain ⟨pre, key, post⟩ := x
      rw [hfp] at hk
      have hlt := findPlaceholder_post_length hfp
      simp only [Bool.and_eq_true, Option.isSome_iff_exists] at hk
      obtain ⟨⟨cfg, hcfg⟩, hk2⟩ := hk
      have ih' := ih post (by omega) hk2
      by_cases hpre : pre = [] <;>
        simpa [hpre, hcfg, segsConcat_append, segsConcat, Segment.content] using ih'

/-- Under known keys and non-empty stored values, the nullish resolver of
`getCurrentText` agrees with the falsy-chain resolver of the parser. -/
theorem resolveNullish_eq_resolveSeg {fields : List (List Char × Field)}
    {fv : List (List Char × List Char)} {key : List Char} {cfg : Field} {v : List Char}
    (hcfg : lookupKey key fields = some cfg) (hv : lookupVal key fv = some v)
    (hne : v ≠ []) :
    resolveNullish fields fv key = resolveSeg fv key cfg := by
  unfold resolveNullish resolveSeg jsOrOpt
  rw [hcfg, hv]
  simp [hne]

/-- `getCurrentText` agrees with placeholder replacement by the parser's
resolver when every placeholder key is known and has a non-empty stored
value. -/
theorem getCurrentText_eq_substResolved (fields : List (List Char × Field))
    (fv : List (List Char × List Char)) :
    ∀ (n : Nat) (s : List Char), s.length ≤ n → keysKnown fields s = true →
      keysStoredNonempty fv s = true →
      getCurrentText fields fv s = substResolved fields fv s := by
  intro n
  induction n with
  | zero =>
    intro s hn _ _
    have hs : s = [] := List.length_eq_zero.mp (Nat.le_zero.mp hn)
    subst hs
    rfl
  | succ n ih =>
    intro s hn hk hv
    rw [getCurrentText_eq, substResolved_eq]
    rw [keysKnown_eq] at hk
    rw [keysStoredNonempty_eq] at hv
    cases hfp : findPlaceholder s with
    | none => rfl
    | some x =>
      obtain ⟨pre, key, post⟩ := x
      rw [hfp] at hk hv
      have hlt := findPlaceholder_post_length hfp
      simp only [Bool.and_eq_true, Option.isSome_iff_exists] at hk
      obtain ⟨⟨cfg, hcfg⟩, hk2⟩ := hk
      simp only [Bool.and_eq_true] at hv
      obtain ⟨hv1, hv2⟩ := hv
      obtain ⟨v, hval, hvne⟩ : ∃ v, lookupVal key fv = some v ∧ v ≠ [] := by
        cases hlv : lookupVal key fv with
        | none => rw [hlv] at hv1; simp at hv1
        | some v =>
          rw [hlv] at hv1
          refine ⟨v, rfl, ?_⟩
          simpa [List.isEmpty_iff] using hv1
      simp [hcfg, resolveNullish_eq_resolveSeg hcfg hval hvne,
        ih post (by omega) hk2 hv2]

/-- Every field segment the parser produces has a known key and carries the
falsy-chain resolution of that key. -/
theorem mem_templateSegments_field (fields : List (List Char × Field))
    (fv : List (List Char × List Char)) :
    ∀ (n : Nat) (s k c : List Char), s.length ≤ n →
      Segment.field k c ∈ templateSegments fields fv s →
      ∃ cfg, lookupKey k fields = some cfg ∧ c = resolveSeg fv k cfg := by
  intro n
  induction n with
  | zero =>
    intro s k c hn hmem
    have hs : s = [] := List.length_eq_zero.mp (Nat.le_zero.mp hn)
    subst hs
    simp [templateSegments_eq, findPlaceholder] at hmem
  | succ n ih =>
    intro s k c hn hmem
    rw [templateSegments_eq] at hmem
    cases hfp : findPlaceholder s with
    | none =>
      rw [hfp] at hmem
      by_cases hs : s = [] <;> simp [hs] at hmem
    | some x =>
      obtain ⟨pre, key, post⟩ := x
      rw [hfp] at hmem
      dsimp only at hmem
      have hlt := findPlaceholder_post_length hfp
      rw [List.mem_append, List.mem_append] at hmem
      rcases hmem with (hmem | hmem) | hmem
      · by_cases hpre : pre = [] <;> simp [hpre] at hmem
      · cases hcfg : lookupKey key fields with
        | none => rw [hcfg] at hmem; simp at hmem
        | some cfg =>
          rw [hcfg] at hmem
          simp only [List.mem_singleton, Segment.field.injEq] at hmem
          obtain ⟨rfl, rfl⟩ := hmem
          exact ⟨cfg, hcfg, rfl⟩
      · exact ih post k c (by omega) hmem

/-- The content of a field segment, phrased the way the (amended) claim
reads: the stored value when present and non-empty, else the definition's
default when non-empty, else the fallback bracket literal. -/
def resolveSpec (fv : List (List Char × List Char)) (k : List Char) (cfg : Field) :
    List Char :=
  match lookupVal k fv with
  | some v =>
    if v ≠ [] then v
    else if cfg.defaultValue ≠ [] then cfg.defaultValue else bracket k
  | none => if cfg.defaultValue ≠ [] then cfg.defaultValue else bracket k

theorem resolveSeg_eq_resolveSpec (fv : List (List Char × List Char))
    (k : List Char) (cfg : Field) : resolveSeg fv k cfg = resolveSpec fv k cfg := by
  unfold resolveSeg resolveSpec jsOrOpt jsOr
  cases lookupVal k fv <;> by_cases hd : cfg.defaultValue = [] <;> simp [hd]

/-- A key run with no closing-brace character, followed by a closing brace,
is exactly what `takeKey` captures. -/
theorem takeKey_exact : ∀ (key post : List Char), key ≠ [] →
    (∀ c ∈ key, c ≠ rbrace) →
    takeKey (key ++ rbrace :: post) = some (key, post) := by
  intro key
  induction key with
  | nil => intro post h _; exact absurd rfl h
  | cons a key' ih =>
    intro post _ hall
    have ha : a ≠ rbrace := hall a (by simp)
    cases key' with
    | nil =>
      simp only [List.cons_append, List.nil_append]
      rw [takeKey.eq_def]
      simp [ha]
    | cons b key'' =>
      have hb : b ≠ rbrace := hall b (by simp)
      have ihr := ih post (by simp) (fun c hc => hall c (by simp [hc]))
      simp only [List.cons_append] at ihr ⊢
      rw [takeKey.eq_def]
      dsimp only
      rw [if_neg ha, if_neg hb, ihr]

/-- `findPlaceholder` on a string that starts with a well-formed
placeholder. -/
theorem findPlaceholder_placeholder (key post : List Char) (hne : key ≠ [])
    (hbr : ∀ c ∈ key, c ≠ rbrace) :
    findPlaceholder (lbrace :: key ++ rbrace :: post) = some ([], key, post) := by
  have h1 := takeKey_exact key post hne hbr
  simp only [List.cons_append]
  simp [findPlaceholder, h1]

/-! ## Component state (part_002 lines 728–752)

The dropdown state, field value store and DOM text, with the handlers that
mutate them. Strings here are Lean `String`s; the store is an association
list mutated by `setValue` (JS object property assignment: update the entry
in place, or append it). -/

/-- A change-notification payload `{ text, values }` (part_002 line 808). -/
structure Payload where
  text : String
  values : List (String × String)
  deriving DecidableEq, Repr

/-- The component's reactive state: the field value store `fieldValues`, the
dropdown state `showDropdown` / `currentField` / `currentTarget` /
`currentOptions`, and the editable area's raw text (`smartInputRef`
`innerText`), from which `getDisplayText` strips the markers.
`currentTarget` carries the clicked element's text content, the only part of
the anchor element the handlers mutate. -/
structure RichState where
  fieldValues : List (String × String)
  showDropdown : Bool
  currentField : String
  currentTarget : Option String
  currentOptions : List String
  domText : String
  deriving DecidableEq, Repr

/-- JS object property assignment `m[k] = v` on the store. -/
def setValue (k v : String) : List (String × String) → List (String × String)
  | [] => [(k, v)]
  | (k', v') :: rest =>
    if k' = k then (k', v) :: rest else (k', v') :: setValue k v rest

/-- Store lookup, `none` for an absent entry. -/
def lookupStr (k : String) : List (String × String) → Option String
  | [] => none
  | (k', v) :: rest => if k' = k then some v else lookupStr k rest

/-- The state at mount, before `initializeFieldValues` runs: empty store,
no dropdown, `currentField` the empty string (part_002 lines 729–746). -/
def initState : RichState :=
  { fieldValues := [], showDropdown := false, currentField := "",
    currentTarget := none, currentOptions := [], domText := "" }

/-- `getDisplayText` (part_002 lines 772–777): the editable area's
`innerText` with zero-width markers stripped. -/
def getDisplayText (s : RichState) : String := stripMarkers s.domText

/-- `emitChange` (part_002 lines 805–814): the payload is the display text
plus a shallow copy of the store. -/
def emitChange (s : RichState) : Payload :=
  { text := getDisplayText s, values := s.fieldValues }

/-- The exposed `getActiveFieldKey` query (part_002 line 827):
`() => currentField.value`. -/
def getActiveFieldKey (s : RichState) : String := s.currentField

/-- The state effect of `showDropdownMenu` (part_002 lines 1189–1192):
record the clicked target and field, load its options
(`OPTIONS.value[type] || []`), and mark the overlay visible. -/
def showDropdownState (targetText ty : String) (optionsOfTy : Option (List String))
    (s : RichState) : RichState :=
  { s with currentTarget := some targetText, currentField := ty,
           currentOptions := optionsOfTy.getD [], showDropdown := true }

/-- `hideDropdown` (part_002 lines 1244–1248): hide the overlay and clear
the target and options. `currentField` is not touched. -/
def hideDropdown (s : RichState) : RichState :=
  { s with showDropdown := false, currentTarget := none, currentOptions := [] }

/-- `selectOption` (part_002 lines 1225–1239): when a field is active and a
target is recorded, write the option into the store and into the target's
text, then emit a change notification and close the overlay. Returns the new
state and the emitted payload. -/
def selectOption (option : String) (s : RichState) : RichState × Payload :=
  let s1 :=
    if s.currentField ≠ "" ∧ s.currentTarget.isSome then
      { s with fieldValues := setValue s.currentField option s.fieldValues,
               currentTarget := some option }
    else s
  let payload := emitChange s1
  (hideDropdown s1, payload)

/-- `handleClickOutside` (part_002 lines 1256–1265): a no-op while no
overlay is shown; otherwise close the overlay unless the interaction target
is contained in the overlay element. `insideDropdown` is
`dropdownMenuRef.value?.contains(target)`. -/
def handleClickOutside (insideDropdown : Bool) (s : RichState) : RichState :=
  if !s.showDropdown then s
  else if !insideDropdown then hideDropdown s
  else s

/-! ## The editable-field change handler (part_002 lines 1053–1090)

`handleChange` reads the input span's text, strips markers, trims, and when
the result is empty replaces the span content with a single zero-width
space; it records content presence in the `data-has-content` attribute,
writes the normalized value into the store and emits a change notification
(when the field key attribute is present). -/

/-- The per-field DOM state `handleChange` operates on: the input span's
text content and the `data-has-content` attribute of the field region. -/
structure EditState where
  spanText : String
  hasContentAttr : Bool
  deriving DecidableEq, Repr

/-- `handleChange` on a free-text field with key attribute `fieldKey`
(empty when the attribute is absent). Returns the updated span state,
component state, and the emitted payload if any. -/
def handleChange (fieldKey : String) (st : EditState) (s : RichState) :
    EditState × RichState × Option Payload :=
  let normalized := stripMarkers st.spanText
  let hasContent := jsTrim normalized ≠ ""
  let st' : EditState :=
    { spanText := if hasContent then st.spanText else zwsp,
      hasContentAttr := hasContent }
  if fieldKey ≠ "" then
    let s' := { s with fieldValues := setValue fieldKey (jsTrim normalized) s.fieldValues }
    (st', s', some (emitChange s'))
  else
    (st', s, none)

/-! ## Whole-field deletion and caret relocation (part_002 lines 1112–1165)

When a delete-class key is pressed in an empty field, the handler removes
the field element and relocates the caret:
`focusNode(prev) || focusNode(next) || parent || inputSpan`, placing the
caret at offset `textContent.length` for a text node and
`childNodes.length` for an element. -/

/-- A DOM node: a text node or an element with children. -/
inductive DomNode where
  | text (s : String)
  | elem (children : List DomNode)

mutual

/-- The text-node descendants of a node in document order (what a
`TreeWalker` with `SHOW_TEXT` visits). -/
def textNodes : DomNode → List DomNode
  | .text s => [.text s]
  | .elem cs => textNodesList cs

/-- The concatenated `textNodes` of the nodes of a child list. -/
def textNodesList : List DomNode → List DomNode
  | [] => []
  | n :: rest => textNodes n ++ textNodesList rest

end

/-- `focusNode` (part_002 lines 1125–1133): `null` stays `null`; a text node
is returned as is; for an element, the last text-node descendant, or the
element itself when it has none. -/
def focusNode : Option DomNode → Option DomNode
  | none => none
  | some (.text s) => some (.text s)
  | some (.elem cs) =>
    match (textNodesList cs).getLast? with
    | some t => some t
    | none => some (.elem cs)

/-- The caret offset used by the handler (part_002 line 1136): the text
length for a text node, the child count for an element; `Math.max(·, 0)` is
the identity on these. -/
def caretOffset : DomNode → Nat
  | .text s => s.length
  | .elem cs => cs.length

/-- `focusNode(prev) || focusNode(next) || parent || inputSpan`
(part_002 line 1135). -/
def caretNode (prev next parent : Option DomNode) (inputSpan : DomNode) : DomNode :=
  match focusNode prev with
  | some n => n
  | none =>
    match focusNode next with
    | some n => n
    | none =>
      match parent with
      | some n => n
      | none => inputSpan

/-- The node and offset the caret is placed at after the field element is
removed (part_002 lines 1135–1141). -/
def caretAfterRemove (prev next parent : Option DomNode) (inputSpan : DomNode) :
    DomNode × Nat :=
  let n := caretNode prev next parent inputSpan
  (n, caretOffset n)

/-- The whole deletion step: the field element at index `i` of its parent's
child list is removed (`target.remove()`, part_002 line 1119, which takes the
placeholder companion inside it along), and the caret is computed from the
previous sibling, next sibling and parent captured beforehand
(part_002 lines 1116–1118). -/
def removeFieldAndPlaceCaret (siblings : List DomNode) (i : Nat)
    (parent inputSpan : DomNode) : List DomNode × DomNode × Nat :=
  let prev := if i = 0 then none else siblings[i - 1]?
  let next := siblings[i + 1]?
  let (n, off) := caretAfterRemove prev next (some parent) inputSpan
  (siblings.eraseIdx i, n, off)

/-! ## Dropdown overlay positioning (src/unnamed/part_001 lines 487–534)

The container-clamped positioning variant: coordinates are relative to the
widget's container. Pixel coordinates are modelled as integers. -/

/-- The geometry of `showDropdownMenu` in part_001: compute the anchor below
the clicked element, then clamp horizontally against the container width and,
when the predicted bottom exceeds the container height, re-anchor above the
element, floored at the container's top edge. Returns `(top, left)`. -/
def showDropdownMenuPos (targetTop targetBottom targetLeft : Int)
    (containerTop containerLeft containerWidth containerHeight : Int)
    (dropdownWidth dropdownHeight : Int) : Int × Int :=
  let relativeTop := targetBottom - containerTop
  let relativeLeft := targetLeft - containerLeft
  let top0 := relativeTop + 4
  let left0 := relativeLeft
  let predictedRight := relativeLeft + dropdownWidth
  let predictedBottom := (relativeTop + 4) + dropdownHeight
  let left :=
    if predictedRight > containerWidth then
      max (relativeLeft - (predictedRight - containerWidth + 10)) 0
    else left0
  let top :=
    if predictedBottom > containerHeight then
      max (targetTop - containerTop - dropdownHeight - 4) 0
    else top0
  (top, left)

/-! ## Auxiliary lemmas for the state model -/

theorem lookupStr_setValue (k v : String) :
    ∀ m : List (String × String), lookupStr k (setValue k v m) = some v := by
  intro m
  induction m with
  | nil => simp [setValue, lookupStr]
  | cons kv rest ih =>
    obtain ⟨k', v'⟩ := kv
    by_cases hk : k' = k <;> simp [setValue, lookupStr, hk, ih]

end RichInput

namespace RichInput

/-! ## Claims -/

/-- C1, counterexample: parsing the template consisting solely of
`\x7bunknownKey\x7d` with an empty field mapping yields the empty segment
list — not a single text segment containing the literal placeholder text, as
the claim states. The unknown-key occurrence is dropped, because the loop
advances `lastIndex` past the match and only pushes a segment when
`fieldConfig` exists. -/
theorem claim_C1_counterexample :
    templateSegments [] [] (String.toList "\x7bunknownKey\x7d") = [] := by
  rfl

/-- C1, amended: an occurrence `\x7bk\x7d` whose key is absent from the field
mapping emits no segment at all for that occurrence — neither a field segment
nor any text segment carrying its braces and key; a template consisting of a
single unknown placeholder parses to the empty segment list. -/
theorem claim_C1 (fields : List (List Char × Field))
    (fv : List (List Char × List Char)) (key : List Char)
    (hunknown : lookupKey key fields = none) (hne : key ≠ [])
    (hbr : ∀ c ∈ key, c ≠ rbrace) :
    templateSegments fields fv (lbrace :: key ++ [rbrace]) = [] := by
  have hfp := findPlaceholder_placeholder key [] hne hbr
  rw [templateSegments_eq, hfp]
  simp [hunknown, templateSegments_eq, findPlaceholder]

/-- C1, witness: the amended statement at the concrete unknown key
`unknownKey` and the empty field mapping. -/
theorem claim_C1_witness :
    lookupKey (String.toList "unknownKey") [] = none ∧
    templateSegments [] [] (lbrace :: String.toList "unknownKey" ++ [rbrace]) = [] :=
  ⟨rfl, claim_C1 [] [] (String.toList "unknownKey") rfl (by decide) (by decide)⟩

/-- C2, counterexample: with field `k` (default `d`) and the store holding
the empty string for `k`, the parser resolves the field segment to the
default `d`, not to the stored empty string as the claim states — JS `||`
lets a stored empty string fall through to the default. -/
theorem claim_C2_counterexample :
    templateSegments [(['k'], Field.input [] ['d'])] [(['k'], [])]
        (String.toList "\x7bk\x7d") = [Segment.field ['k'] ['d']] ∧
    (['d'] : List Char) ≠ [] :=
  ⟨rfl, by decide⟩

/-- C2, amended: every field segment the parser produces for key `k` has a
key known to the field mapping and content equal to: the stored value when
present and non-empty; else the definition's default when non-empty; else
the literal `[k]`. (Both an absent entry and a stored empty string fall
through to the default, and an empty default falls through to the bracket
literal.) -/
theorem claim_C2 (fields : List (List Char × Field))
    (fv : List (List Char × List Char)) (s k c : List Char)
    (h : Segment.field k c ∈ templateSegments fields fv s) :
    ∃ cfg, lookupKey k fields = some cfg ∧ c = resolveSpec fv k cfg := by
  obtain ⟨cfg, hcfg, hc⟩ :=
    mem_templateSegments_field fields fv s.length s k c (Nat.le_refl _) h
  exact ⟨cfg, hcfg, by rw [hc, resolveSeg_eq_resolveSpec]⟩

/-- C2, witness: the amended statement at a concrete parse with a stored
non-empty value. -/
theorem claim_C2_witness :
    (Segment.field ['k'] ['x'] ∈
      templateSegments [(['k'], Field.input [] [])] [(['k'], ['x'])]
        (String.toList "\x7bk\x7d")) ∧
    ∃ cfg, lookupKey ['k'] [(['k'], Field.input [] [])] = some cfg ∧
      ['x'] = resolveSpec [(['k'], ['x'])] ['k'] cfg :=
  ⟨by decide,
    claim_C2 [(['k'], Field.input [] [])] [(['k'], ['x'])]
      (String.toList "\x7bk\x7d") ['k'] ['x'] (by decide)⟩

/-- C3: whenever the input span's text, with zero-width markers stripped,
trims to the empty string, `handleChange` installs exactly the single
zero-width marker character as the span's content — one character, never
zero, whose marker-stripped query is the empty string. -/
theorem claim_C3 (fieldKey : String) (st : EditState) (s : RichState)
    (h : jsTrim (stripMarkers st.spanText) = "") :
    (handleChange fieldKey st s).1.spanText = zwsp ∧
    (handleChange fieldKey st s).1.spanText.length = 1 ∧
    stripMarkers (handleChange fieldKey st s).1.spanText = "" := by
  have h1 : stripMarkers zwsp = "" := by decide
  have h2 : zwsp.length = 1 := by decide
  by_cases hk : fieldKey = "" <;> simp [handleChange, h, hk, h1, h2]

/-- C3, witness: the statement at a span containing a marker and a space. -/
theorem claim_C3_witness :
    jsTrim (stripMarkers (String.mk [bomChar, ' '])) = "" ∧
    ((handleChange "k" (EditState.mk (String.mk [bomChar, ' ']) true)
        initState).1.spanText = zwsp ∧
      (handleChange "k" (EditState.mk (String.mk [bomChar, ' ']) true)
        initState).1.spanText.length = 1 ∧
      stripMarkers (handleChange "k" (EditState.mk (String.mk [bomChar, ' ']) true)
        initState).1.spanText = "") :=
  ⟨by decide, claim_C3 "k" (EditState.mk (String.mk [bomChar, ' ']) true)
    initState (by decide)⟩

/-- C4, counterexample: when the removed field has no previous sibling and
the following sibling is the text node `ab`, the handler places the caret at
offset 2 — the end of the following sibling's text — not at its start
(offset 0) as the claim states. -/
theorem claim_C4_counterexample :
    caretAfterRemove none (some (DomNode.text "ab")) (some (DomNode.elem []))
        (DomNode.elem []) = (DomNode.text "ab", 2) ∧
    (2 : Nat) ≠ 0 :=
  ⟨rfl, by decide⟩

/-- C4, amended: on a delete-class key in an empty field the field element is
removed from its parent's child list, and the caret preference order is: the
end of the previous sibling's text; failing that, the end (not the start) of
the following sibling's text; failing both siblings, the end of the parent
node. (The end of the whole editable area is reached only on the exception
path, when caret placement throws.) -/
theorem claim_C4 (p nxt : String) (nextAny parentAny : Option DomNode)
    (parent inputSpan : DomNode) (siblings : List DomNode) (i : Nat) :
    (removeFieldAndPlaceCaret siblings i parent inputSpan).1 =
      siblings.eraseIdx i ∧
    caretAfterRemove (some (DomNode.text p)) nextAny parentAny inputSpan =
      (DomNode.text p, p.length) ∧
    caretAfterRemove none (some (DomNode.text nxt)) parentAny inputSpan =
      (DomNode.text nxt, nxt.length) ∧
    caretAfterRemove none none (some parent) inputSpan =
      (parent, caretOffset parent) :=
  ⟨rfl, rfl, rfl, rfl⟩

/-- C5: committing option `o` for the active field `f` (non-empty current
field with a recorded target, overlay shown, `o` among the current options)
stores `o` under `f`, emits a change notification whose values map `f` to
`o`, and leaves the overlay closed. -/
theorem claim_C5 (s : RichState) (f o : String) (hf : s.currentField = f)
    (hne : f ≠ "") (ht : s.currentTarget.isSome = true)
    (_hopen : s.showDropdown = true) (_ho : o ∈ s.currentOptions) :
    lookupStr f (selectOption o s).1.fieldValues = some o ∧
    lookupStr f (selectOption o s).2.values = some o ∧
    (selectOption o s).1.showDropdown = false := by
  subst hf
  have hcond : s.currentField ≠ "" ∧ s.currentTarget.isSome := ⟨hne, ht⟩
  simp [selectOption, hideDropdown, emitChange, hcond, lookupStr_setValue]

/-- C5, witness: committing `C` for the active field `topic`. -/
theorem claim_C5_witness :
    ((showDropdownState "t" "topic" (some ["A", "B", "C"]) initState).currentField
        = "topic" ∧
      (showDropdownState "t" "topic" (some ["A", "B", "C"]) initState).showDropdown
        = true) ∧
    (lookupStr "topic"
        (selectOption "C"
          (showDropdownState "t" "topic" (some ["A", "B", "C"]) initState)).1.fieldValues
        = some "C" ∧
      lookupStr "topic"
        (selectOption "C"
          (showDropdownState "t" "topic" (some ["A", "B", "C"]) initState)).2.values
        = some "C" ∧
      (selectOption "C"
        (showDropdownState "t" "topic" (some ["A", "B", "C"]) initState)).1.showDropdown
        = false) :=
  ⟨⟨rfl, rfl⟩, claim_C5 _ "topic" "C" rfl (by decide) (by decide) (by decide) (by decide)⟩

/-- C6: in the container-clamped positioning of `showDropdownMenu`
(src/unnamed/part_001), when the overlay's predicted bottom edge exceeds the
container's height the computed top coordinate is never negative, and is
either the container's top edge (the floor) or places the overlay's bottom
edge exactly the 4-pixel gap above the clicked element's top. -/
theorem claim_C6 (tTop tBottom tLeft cTop cLeft cW cH dW dH : Int)
    (h : tBottom - cTop + 4 + dH > cH) :
    0 ≤ (showDropdownMenuPos tTop tBottom tLeft cTop cLeft cW cH dW dH).1 ∧
    ((showDropdownMenuPos tTop tBottom tLeft cTop cLeft cW cH dW dH).1 = 0 ∨
      (showDropdownMenuPos tTop tBottom tLeft cTop cLeft cW cH dW dH).1 + dH + 4 =
        tTop - cTop) := by
  unfold showDropdownMenuPos
  dsimp only
  rw [if_pos h]
  refine ⟨le_max_right _ _, ?_⟩
  rcases max_choice (tTop - cTop - dH - 4) 0 with hm | hm <;> rw [hm]
  · right; ring
  · left; rfl

/-- C6, witness: the clamped branch at concrete geometry where the overlay
does not hit the floor. -/
theorem claim_C6_witness :
    ((60 : Int) - 0 + 4 + 30 > 70) ∧
    (0 ≤ (showDropdownMenuPos 50 60 10 0 0 500 70 100 30).1 ∧
      ((showDropdownMenuPos 50 60 10 0 0 500 70 100 30).1 = 0 ∨
        (showDropdownMenuPos 50 60 10 0 0 500 70 100 30).1 + 30 + 4 = 50 - 0)) :=
  ⟨by decide, claim_C6 50 60 10 0 0 500 70 100 30 (by decide)⟩

/-- C7, counterexample: open the dropdown for field `topic` from the initial
state, then commit the selection `C`; the overlay is closed afterwards, yet
`getActiveFieldKey` returns `topic`, not the empty string the claim
requires — `hideDropdown` clears the target and options but not
`currentField`. -/
theorem claim_C7_counterexample :
    ((selectOption "C"
        (showDropdownState "t" "topic" (some ["A", "B", "C"]) initState)).1.showDropdown
      = false) ∧
    getActiveFieldKey
        (selectOption "C"
          (showDropdownState "t" "topic" (some ["A", "B", "C"]) initState)).1
      = "topic" ∧
    ("topic" : String) ≠ "" := by
  refine ⟨rfl, rfl, by decide⟩

/-- C7, amended: `getActiveFieldKey` returns `currentField`, which closing
the overlay leaves untouched: after `hideDropdown` the overlay is closed and
the query still returns whatever field was last active; it returns the empty
string in the initial state, before any dropdown has been opened. -/
theorem claim_C7 (s : RichState) :
    getActiveFieldKey (hideDropdown s) = getActiveFieldKey s ∧
    (hideDropdown s).showDropdown = false ∧
    getActiveFieldKey initState = "" := by
  simp [getActiveFieldKey, hideDropdown, initState]

/-- C8: when every placeholder key of the template is present in the field
mapping, concatenating the parser's segment contents in order equals the
template with every placeholder occurrence replaced by its field's resolved
content (`substResolved`), which by construction emits the resolved content
in place of the matched brace-delimited occurrence. -/
theorem claim_C8 (fields : List (List Char × Field))
    (fv : List (List Char × List Char)) (s : List Char)
    (h : keysKnown fields s = true) :
    segsConcat (templateSegments fields fv s) = substResolved fields fv s :=
  segsConcat_templateSegments fields fv s.length s (Nat.le_refl _) h

/-- C8, witness: the round-trip at a concrete template with one known key. -/
theorem claim_C8_witness :
    keysKnown [(['k'], Field.input [] ['v'])] (String.toList "a\x7bk\x7db") = true ∧
    segsConcat (templateSegments [(['k'], Field.input [] ['v'])] []
        (String.toList "a\x7bk\x7db")) =
      substResolved [(['k'], Field.input [] ['v'])] [] (String.toList "a\x7bk\x7db") :=
  ⟨by decide, claim_C8 _ _ _ (by decide)⟩

/-- C9: the outside-interaction handler is the identity when no overlay is
shown; when an overlay is shown and the interaction target is not contained
in the overlay element, it closes the overlay and leaves the field value
store unchanged. -/
theorem claim_C9 (s : RichState) (insideDropdown : Bool) :
    (s.showDropdown = false → handleClickOutside insideDropdown s = s) ∧
    (s.showDropdown = true → insideDropdown = false →
      (handleClickOutside insideDropdown s).showDropdown = false ∧
      (handleClickOutside insideDropdown s).fieldValues = s.fieldValues) := by
  constructor
  · intro h
    simp [handleClickOutside, h]
  · intro h hin
    subst hin
    simp [handleClickOutside, h, hideDropdown]

/-- C9, witness: both parts at concrete states — the initial (closed) state
and an opened state. -/
theorem claim_C9_witness :
    handleClickOutside false initState = initState ∧
    ((handleClickOutside false
        (showDropdownState "t" "topic" (some ["A"]) initState)).showDropdown = false ∧
      (handleClickOutside false
          (showDropdownState "t" "topic" (some ["A"]) initState)).fieldValues =
        (showDropdownState "t" "topic" (some ["A"]) initState).fieldValues) :=
  ⟨(claim_C9 initState false).1 rfl,
    (claim_C9 (showDropdownState "t" "topic" (some ["A"]) initState) false).2 rfl rfl⟩

/-- Every entry of the field value store is a non-empty string — the
hypothesis of C10 as literally stated (it says nothing about placeholder
keys missing from the store). -/
def allValuesNonempty (fv : List (List Char × List Char)) : Bool :=
  fv.all (fun kv => !kv.2.isEmpty)

/-- C10, counterexample: field `k` is in the mapping with empty default, the
store is empty (so every stored value is vacuously non-empty), and the
template is the single placeholder: `getCurrentText` resolves the missing
stored value with `??` to the empty default, while the parser's `||` chain
falls through to the bracket literal `[k]` — the two disagree although the
claim's hypotheses hold. -/
theorem claim_C10_counterexample :
    keysKnown [(['k'], Field.input [] [])] (String.toList "\x7bk\x7d") = true ∧
    allValuesNonempty [] = true ∧
    getCurrentText [(['k'], Field.input [] [])] [] (String.toList "\x7bk\x7d") ≠
      segsConcat (templateSegments [(['k'], Field.input [] [])] []
        (String.toList "\x7bk\x7d")) := by
  refine ⟨rfl, rfl, by decide⟩

/-- C10, amended: when every placeholder key is present in the field mapping
and additionally has a stored entry that is a non-empty string, the
template-resolved text of `getCurrentText` equals the in-order concatenation
of the contents of the segments produced by `templateSegments`. -/
theorem claim_C10 (fields : List (List Char × Field))
    (fv : List (List Char × List Char)) (s : List Char)
    (hk : keysKnown fields s = true) (hv : keysStoredNonempty fv s = true) :
    getCurrentText fields fv s = segsConcat (templateSegments fields fv s) := by
  rw [getCurrentText_eq_substResolved fields fv s.length s (Nat.le_refl _) hk hv,
    segsConcat_templateSegments fields fv s.length s (Nat.le_refl _) hk]

/-- C10, witness: the equivalence at a concrete template whose key has a
stored non-empty value. -/
theorem claim_C10_witness :
    keysKnown [(['k'], Field.input [] [])] (String.toList "x\x7bk\x7dy") = true ∧
    keysStoredNonempty [(['k'], ['A'])] (String.toList "x\x7bk\x7dy") = true ∧
    getCurrentText [(['k'], Field.input [] [])] [(['k'], ['A'])]
        (String.toList "x\x7bk\x7dy") =
      segsConcat (templateSegments [(['k'], Field.input [] [])] [(['k'], ['A'])]
        (String.toList "x\x7bk\x7dy")) :=
  ⟨by decide, by decide, claim_C10 _ _ _ (by decide) (by decide)⟩

end RichInput
